import Mathlib

/-!
# Verification of the SurfGEO crawler and pipeline state-merge engine

A shallow embedding of the core of the SurfGEO repository:

* `src/agents/schemas.py` — per-field merge reducers for the LangGraph
  `ResearchState` record;
* `src/agents/scrapper_agent.py` — URL normalization, link validity
  filtering, link extraction, the retrying page fetcher and the
  breadth-first crawl loop;
* `src/controller.py` — the workflow graph wiring and the scrape node.

Python strings are modelled as `List Char`; machine floating point load
times as `ℚ` (only sums, lengths and a guarded division are performed on
them); Python `Optional[str]` as `Option String`; raised exceptions as
`Except`/`Option` results.  The `urllib.parse` standard-library functions
used by the source (`urlparse`, `urlunparse`, `urljoin`) are modelled from
CPython's `Lib/urllib/parse.py`; the one deliberate deviation is that an
authority component containing `[` or `]` (bracketed IPv6 hosts, which
CPython validates and may reject with `ValueError`) is modelled as a parse
failure outright.  No theorem below exercises bracketed hosts.
-/

namespace SurfGEO

/-! ## Python truthiness and the state reducers (`src/agents/schemas.py`)

Every reducer in `schemas.py` is `return existing or new` except the first
definition of `reduce_error` (lines 63–65), which is `return new or
existing`.  Python's `x or y` returns `x` when `x` is truthy; a value of
type `Optional[str]` is truthy exactly when it is neither `None` nor the
empty string. -/

/-- Truthiness of a Python `Optional[str]` value: `None` and `""` are falsy,
every other string is truthy. -/
def truthyStr : Option String → Bool
  | none => false
  | some s => !s.isEmpty

/-- Python `existing or new` on `Optional[str]` operands. -/
def pyOrStr (existing new : Option String) : Option String :=
  if truthyStr existing then existing else new

/-- `reduce_company_name` (schemas.py line 5): keep existing if set. -/
def reduce_company_name (existing new : Option String) : Option String :=
  pyOrStr existing new

/-- `reduce_niche` (schemas.py lines 47 and 71, both definitions identical):
keep the existing niche if it exists, otherwise use the new value. -/
def reduce_niche (existing new : Option String) : Option String :=
  pyOrStr existing new

/-- `reduce_industry` (schemas.py lines 51 and 75, identical). -/
def reduce_industry (existing new : Option String) : Option String :=
  pyOrStr existing new

/-- `reduce_goals` (schemas.py lines 55 and 79, identical). -/
def reduce_goals (existing new : Option String) : Option String :=
  pyOrStr existing new

/-- `reduce_usp` (schemas.py lines 59 and 83, identical). -/
def reduce_usp (existing new : Option String) : Option String :=
  pyOrStr existing new

/-- The FIRST definition of `reduce_error` (schemas.py lines 63–65):
`return new or existing` — "Prioritize the new error if it exists".
This binding is shadowed before `ResearchState` is declared. -/
def reduce_error_first_def (existing new : Option String) : Option String :=
  if truthyStr new then new else existing

/-- The SECOND definition of `reduce_error` (schemas.py lines 87–89):
`return existing or new`.  Because Python executes the module top to
bottom, this later definition shadows the first one, and it is the binding
named by `ResearchState`'s `error: Annotated[Optional[str], reduce_error]`
(line 155).  So the effective error reducer keeps the existing error. -/
def reduce_error (existing new : Option String) : Option String :=
  pyOrStr existing new

/-! ## Average page load speed (`scrape_website`, scrapper_agent.py line 429)

`sum(self.load_times) / len(self.load_times) if self.load_times else 0.0`.
Load times are floats in the source; they are modelled as rationals — the
claim concerns only the guard that avoids dividing by zero. -/

/-- The `average_page_load_speed` entry of the scraped summary. -/
def average_page_load_speed (load_times : List ℚ) : ℚ :=
  if load_times = [] then 0 else load_times.sum / (load_times.length : ℚ)

/-! ## List helpers used by the `urllib.parse` model -/

/-- Split a list at the first occurrence of `c`: `some (before, after)`
with the original list equal to `before ++ c :: after` and `c ∉ before`,
or `none` when `c` does not occur.  Models `str.find`/`str.split(c, 1)`
and `str.partition`. -/
def splitFirst (c : Char) : List Char → Option (List Char × List Char)
  | [] => none
  | x :: xs =>
    if x = c then some ([], xs)
    else
      match splitFirst c xs with
      | none => none
      | some (b, a) => some (x :: b, a)

/-- Python substring test `pat in s` (for a nonempty pattern). -/
def occursIn (pat : List Char) : List Char → Bool
  | [] => pat.isPrefixOf []
  | x :: xs => pat.isPrefixOf (x :: xs) || occursIn pat xs

/-- Python `set.add` on a set modelled as an insertion-ordered
duplicate-free list. -/
def setAdd (l : List (List Char)) (x : List Char) : List (List Char) :=
  if x ∈ l then l else l ++ [x]

/-! ## Model of `urllib.parse` (CPython `Lib/urllib/parse.py`)

`normalize_url` (scrapper_agent.py lines 54–59), `is_valid_url` (line 63)
and `get_links` (line 216) call `urlparse`, `urlunparse` and `urljoin`.
The model below follows CPython's implementation.  Bracketed (IPv6)
authority components, which CPython subjects to further validation that
can raise `ValueError`, are modelled as a parse failure (`none`); control
characters `\t`, `\r`, `\n` are removed up front exactly as CPython's
`_UNSAFE_URL_BYTES_TO_REMOVE` loop does. -/

/-- The bytes CPython removes from a URL before parsing. -/
def controlByte (c : Char) : Bool := c = '\t' || c = '\r' || c = '\n'

/-- Removal of `\t`, `\r`, `\n` performed at the top of `urlsplit`. -/
def stripControlBytes (l : List Char) : List Char := l.filter (fun c => !controlByte c)

/-- CPython `scheme_chars`. -/
def isSchemeChar (c : Char) : Bool :=
  c.isAlpha || c.isDigit || c = '+' || c = '-' || c = '.'

/-- A character at which `_splitnetloc` stops scanning the authority. -/
def netlocChar (c : Char) : Bool := !(c = '/' || c = '?' || c = '#')

/-- Result of `urlsplit`. -/
structure SplitResult where
  scheme : List Char
  netloc : List Char
  path : List Char
  query : List Char
  fragment : List Char
deriving DecidableEq, Repr

/-- Result of `urlparse` (`urlsplit` plus the `params` component). -/
structure ParseResult where
  scheme : List Char
  netloc : List Char
  path : List Char
  params : List Char
  query : List Char
  fragment : List Char
deriving DecidableEq, Repr

/-- Scheme recognition step of `urlsplit`: the text before the first `:`
is taken as the scheme when it is nonempty, starts with an ASCII letter
and consists of scheme characters; it is lower-cased.  Otherwise the
default scheme is used and the URL is left whole. -/
def splitScheme (url dflt : List Char) : List Char × List Char :=
  match splitFirst ':' url with
  | some (before, after) =>
    if before ≠ [] ∧ before.head?.any Char.isAlpha ∧ before.all isSchemeChar
    then (before.map Char.toLower, after)
    else (dflt, url)
  | none => (dflt, url)

/-- `urlsplit(url, scheme=dflt, allow_fragments=True)`.  All call sites in
the repository use `allow_fragments=True`.  Returns `none` exactly when
the authority contains a bracket (see the section comment). -/
def pyUrlsplit (url0 dflt0 : List Char) : Option SplitResult :=
  let url := stripControlBytes url0
  let dflt := stripControlBytes dflt0
  let (scheme, rest) := splitScheme url dflt
  let (netloc, rest) :=
    if rest.take 2 = ['/', '/'] then
      ((rest.drop 2).takeWhile netlocChar, (rest.drop 2).dropWhile netlocChar)
    else ([], rest)
  if '[' ∈ netloc ∨ ']' ∈ netloc then none
  else
    let (rest, fragment) :=
      match splitFirst '#' rest with
      | some (b, a) => (b, a)
      | none => (rest, [])
    let (path, query) :=
      match splitFirst '?' rest with
      | some (b, a) => (b, a)
      | none => (rest, [])
    some ⟨scheme, netloc, path, query, fragment⟩

/-- CPython `uses_params`: schemes whose path may carry `;params`. -/
def uses_params : List (List Char) :=
  (["", "ftp", "hdl", "prospero", "http", "imap", "https", "shttp", "rtsp",
    "rtspu", "sip", "sips", "snews", "sftp", "tel", "telnet", "nntp",
    "wais", "ws", "wss"]).map String.toList

/-- `_splitparams(url)`: split `;params` off the last path segment. -/
def pySplitparams (url : List Char) : List Char × List Char :=
  if '/' ∈ url then
    let r := url.reverse
    let post := (r.takeWhile (fun c => c ≠ '/')).reverse
    let pre := ((r.dropWhile (fun c => c ≠ '/')).drop 1).reverse
    match splitFirst ';' post with
    | none => (url, [])
    | some (a, b) => (pre ++ '/' :: a, b)
  else
    match splitFirst ';' url with
    | none => (url, [])
    | some (a, b) => (a, b)

/-- `urlparse(url, scheme=dflt, allow_fragments=True)`. -/
def pyUrlparse (url dflt : List Char) : Option ParseResult :=
  (pyUrlsplit url dflt).map fun s =>
    if s.scheme ∈ uses_params ∧ ';' ∈ s.path then
      let (p, params) := pySplitparams s.path
      ⟨s.scheme, s.netloc, p, params, s.query, s.fragment⟩
    else ⟨s.scheme, s.netloc, s.path, [], s.query, s.fragment⟩

/-- `urlunsplit((scheme, netloc, url, query, fragment))`. -/
def pyUrlunsplit (scheme netloc path query fragment : List Char) : List Char :=
  let url := path
  let url :=
    if netloc ≠ [] ∨ (url ≠ [] ∧ url.take 2 = ['/', '/']) then
      '/' :: '/' :: (netloc ++ (if url ≠ [] ∧ url.head? ≠ some '/' then '/' :: url else url))
    else url
  let url := if scheme ≠ [] then scheme ++ ':' :: url else url
  let url := if query ≠ [] then url ++ '?' :: query else url
  if fragment ≠ [] then url ++ '#' :: fragment else url

/-- `urlunparse((scheme, netloc, url, params, query, fragment))`. -/
def pyUrlunparse (scheme netloc path params query fragment : List Char) : List Char :=
  pyUrlunsplit scheme netloc (if params ≠ [] then path ++ ';' :: params else path)
    query fragment

/-- Python `str.rstrip('/')`. -/
def rstripSlash (l : List Char) : List Char :=
  (l.reverse.dropWhile (fun c => c = '/')).reverse

/-- `ScraperAgent.normalize_url` (scrapper_agent.py lines 54–59):
```
parsed = urlparse(url)
return urlunparse((parsed.scheme, parsed.netloc, parsed.path.rstrip('/'), '', '', ''))
```
`none` models the `ValueError` CPython may raise on a bracketed host. -/
def normalize_url (url : List Char) : Option (List Char) :=
  (pyUrlparse url []).map fun p =>
    pyUrlunparse p.scheme p.netloc (rstripSlash p.path) [] [] []

/-- CPython `uses_relative`. -/
def uses_relative : List (List Char) :=
  (["", "ftp", "http", "gopher", "nntp", "imap", "wais", "file", "https",
    "shttp", "mms", "prospero", "rtsp", "rtspu", "sftp", "svn", "svn+ssh",
    "ws", "wss"]).map String.toList

/-- CPython `uses_netloc`. -/
def uses_netloc : List (List Char) :=
  (["", "ftp", "http", "gopher", "nntp", "telnet", "imap", "wais", "file",
    "mms", "https", "shttp", "snews", "prospero", "rtsp", "rtspu", "rsync",
    "svn", "svn+ssh", "sftp", "nfs", "git", "git+ssh", "ws", "wss",
    "itms-services"]).map String.toList

/-- Tail worker for `filterEmptyMiddle`: always keeps the final element. -/
def filterEmptyMiddleTail : List (List Char) → List (List Char)
  | [] => []
  | [y] => [y]
  | y :: ys => if y = [] then filterEmptyMiddleTail ys else y :: filterEmptyMiddleTail ys

/-- The `segments[1:-1] = filter(None, segments[1:-1])` statement of
`urljoin`: drop empty segments, keeping the first and last elements. -/
def filterEmptyMiddle : List (List Char) → List (List Char)
  | [] => []
  | [x] => [x]
  | x :: xs => x :: filterEmptyMiddleTail xs

/-- The segment-resolution loop of `urljoin` (`.` skipped, `..` pops). -/
def resolveSegments (segments : List (List Char)) : List (List Char) :=
  segments.foldl
    (fun acc seg =>
      if seg = ['.', '.'] then acc.dropLast
      else if seg = ['.'] then acc
      else acc ++ [seg]) []

/-- `urljoin(base, url)` (allow_fragments left at its default `True`). -/
def pyUrljoin (base url : List Char) : Option (List Char) :=
  if base = [] then some url
  else if url = [] then some base
  else do
    let b ← pyUrlparse base []
    let u ← pyUrlparse url b.scheme
    if u.scheme ≠ b.scheme ∨ u.scheme ∉ uses_relative then
      pure url
    else if u.scheme ∈ uses_netloc ∧ u.netloc ≠ [] then
      pure (pyUrlunparse u.scheme u.netloc u.path u.params u.query u.fragment)
    else
      let netloc := if u.scheme ∈ uses_netloc then b.netloc else u.netloc
      if u.path = [] ∧ u.params = [] then
        let query := if u.query = [] then b.query else u.query
        pure (pyUrlunparse u.scheme netloc b.path b.params query u.fragment)
      else
        let base_parts := b.path.splitOn '/'
        let base_parts :=
          if base_parts.getLast? ≠ some [] then base_parts.dropLast else base_parts
        let segments :=
          if u.path.head? = some '/' then u.path.splitOn '/'
          else filterEmptyMiddle (base_parts ++ u.path.splitOn '/')
        let resolved := resolveSegments segments
        let resolved :=
          if segments.getLast? = some ['.'] ∨ segments.getLast? = some ['.', '.']
          then resolved ++ [[]] else resolved
        pure (pyUrlunparse u.scheme netloc (List.intercalate ['/'] resolved)
          u.params u.query u.fragment)

/-! ## Python `str.replace`, `str.strip` and `normalize_domain` -/

/-- Worker for `pyReplace`: left-to-right, non-overlapping replacement of
the nonempty pattern `p0 :: prest` by `repl`.  The structural `fuel`
argument bounds the number of scan positions; started at the string's
length it is never exhausted, since every step consumes at least one
character. -/
def replaceGo (p0 : Char) (prest repl : List Char) : Nat → List Char → List Char
  | _, [] => []
  | 0, s => s
  | fuel + 1, c :: rest =>
    if (p0 :: prest).isPrefixOf (c :: rest)
    then repl ++ replaceGo p0 prest repl fuel (rest.drop prest.length)
    else c :: replaceGo p0 prest repl fuel rest

/-- Python `s.replace(pat, repl)` for a nonempty pattern (an empty pattern,
which Python treats by interspersing, does not occur in the repository). -/
def pyReplace (pat repl s : List Char) : List Char :=
  match pat with
  | [] => s
  | p0 :: prest => replaceGo p0 prest repl s.length s

/-- The whitespace characters stripped by `str.strip()` (ASCII range; the
domains the repository strips are ASCII). -/
def isPySpace (c : Char) : Bool :=
  c = ' ' || c = '\t' || c = '\n' || c = '\r' || c = '\x0b' || c = '\x0c'

/-- Python `s.strip()` over ASCII whitespace. -/
def pyStrip (l : List Char) : List Char :=
  ((l.dropWhile isPySpace).reverse.dropWhile isPySpace).reverse

/-- `ScraperAgent.normalize_domain` (scrapper_agent.py lines 44–52):
`domain.lower().replace("www.", "").strip()`.  The `domain_cache` dict is
a memo table for this pure computation and is omitted.  Note the replace
removes EVERY occurrence of `"www."`, not only a leading one. -/
def normalize_domain (domain : List Char) : List Char :=
  pyStrip (pyReplace "www.".toList [] (domain.map Char.toLower))

/-! ## Crawler state and `is_valid_url` / `get_links`

The mutable attributes of `ScraperAgent` together with the local variables
of `scrape_site` form one state record.  `fetch_log` is a ghost field
recording each URL passed to `scrape_and_extract`, added so that "no URL
is dispatched twice" is expressible; no source behaviour reads it. -/

/-- One page's extracted data.  `extract_page_data` is a pure function of
the fetched HTML, which is environment input, so the record is abstracted
to an opaque blob supplied by the fetch oracle. -/
abbrev PageData := List Char

/-- Crawler state: `ScraperAgent.visited` / `rejected_urls` / `load_times`
plus the `scrape_site` locals `queue` and `scraped_pages`, and the ghost
dispatch log. -/
structure CrawlState where
  visited : List (List Char)
  rejected_urls : List (List Char)
  load_times : List ℚ
  queue : List (List Char)
  scraped_pages : List PageData
  fetch_log : List (List Char)
deriving DecidableEq, Repr

/-- The static-asset extensions rejected by `is_valid_url`. -/
def staticAssetExts : List (List Char) :=
  ([".pdf", ".jpg", ".png", ".gif", ".css", ".js", ".woff", ".woff2",
    ".mp4", ".webm"]).map String.toList

/-- `ScraperAgent.is_valid_url` (scrapper_agent.py lines 61–77).  A URL is
valid when it is on the base domain, unvisited, has no static-asset
extension and contains no `#`; an invalid URL is appended to
`rejected_urls`.  The `Except` channel carries the `ValueError` that
`urlparse` can raise. -/
def is_valid_url (url domain : List Char) (st : CrawlState) :
    CrawlState × Except (List Char) Bool :=
  match pyUrlparse url [] with
  | none => (st, .error "Invalid IPv6 URL".toList)
  | some parsed =>
    let url_domain := normalize_domain parsed.netloc
    let base_domain := normalize_domain domain
    if url_domain = base_domain ∧ url ∉ st.visited ∧
        staticAssetExts.all (fun ext => !ext.isSuffixOf url) ∧ '#' ∉ url
    then (st, .ok true)
    else ({st with rejected_urls := st.rejected_urls ++ [url]}, .ok false)

/-- The pattern rewritten by `get_links`. -/
def fframeworksPat : List Char := "fframeworks".toList

/-- The replacement written by `get_links`. -/
def frameworksRep : List Char := "frameworks".toList

/-- The candidate URL `get_links` computes for one `href` before the
`fframeworks` rewrite: `self.normalize_url(urljoin(current_url, href).split('#')[0])`
(scrapper_agent.py line 216). -/
def candNorm (current_url href : List Char) : Option (List Char) :=
  (pyUrljoin current_url href).bind fun joined =>
    normalize_url
      (match splitFirst '#' joined with
       | some (b, _) => b
       | none => joined)

/-- `ScraperAgent.get_links` (scrapper_agent.py lines 209–222).  The hrefs
of the page's anchors are environment input.  Python accumulates the valid
links in a `set`; the model keeps them as an insertion-ordered
duplicate-free list.  An exception raised while processing an href
propagates (it is caught by `scrape_and_extract`); state mutations made
before the raise persist. -/
def get_links (current_url domain : List Char) :
    List (List Char) → CrawlState → List (List Char) →
    CrawlState × Except (List Char) (List (List Char))
  | [], st, links => (st, .ok links)
  | href :: rest, st, links =>
    if href.head? = some '#' then get_links current_url domain rest st links
    else
      match candNorm current_url href with
      | none => (st, .error "Invalid IPv6 URL".toList)
      | some nu =>
        let full_url := pyReplace fframeworksPat frameworksRep nu
        match is_valid_url full_url domain st with
        | (st, .error e) => (st, .error e)
        | (st, .ok true) => get_links current_url domain rest st (setAdd links full_url)
        | (st, .ok false) => get_links current_url domain rest st links

/-! ## `scrape_and_extract`: the retrying fetcher -/

/-- What one browser attempt yields, abstracting Playwright: either the
rendered content — already split into the extracted page record, the load
time, and the page's anchor hrefs — or a raised exception.  A navigation
timeout is NOT an exception here: the source catches
`PlaywrightTimeoutError` inside the attempt and continues with the partial
content, so a timeout surfaces as an `ok` outcome. -/
inductive BrowserOutcome where
  | ok (loadTime : ℚ) (data : PageData) (hrefs : List (List Char))
  | exn (msg : List Char)
deriving DecidableEq, Repr

/-- Result dict of `scrape_and_extract`: either
`{"url": url, "data": data, "links": links}` or `{"url": url, "error": msg}`. -/
inductive FetchResult where
  | page (url : List Char) (data : PageData) (links : List (List Char))
  | error (url : List Char) (msg : List Char)
deriving DecidableEq, Repr

/-- Append a URL to `rejected_urls`. -/
def addRejected (st : CrawlState) (url : List Char) : CrawlState :=
  {st with rejected_urls := st.rejected_urls ++ [url]}

/-- The `for attempt in range(retries)` loop of `scrape_and_extract`
(scrapper_agent.py lines 227–268), at attempt number `attempt` with
`remaining` loop iterations still allowed (`remaining = retries - attempt`
at every call).  On a successful attempt the load time is recorded and the
page data and links are returned; on an exception the last attempt
(`attempt == retries - 1`) appends the URL to `rejected_urls` and returns
an error result, earlier attempts retry.  Exhausting the range (possible
only when `retries = 0`) returns the final `"Max retries reached"`
error. -/
def scrapeAttempts (oracle : Nat → BrowserOutcome) (url domain : List Char)
    (retries : Nat) : Nat → Nat → CrawlState → FetchResult × CrawlState
  | 0, _, st => (.error url "Max retries reached".toList, st)
  | remaining + 1, attempt, st =>
    match oracle attempt with
    | .exn msg =>
      if attempt = retries - 1 then (.error url msg, addRejected st url)
      else scrapeAttempts oracle url domain retries remaining (attempt + 1) st
    | .ok lt pd hrefs =>
      let st' := {st with load_times := st.load_times ++ [lt]}
      match get_links url domain hrefs st' [] with
      | (st'', .ok links) => (.page url pd links, st'')
      | (st'', .error m) =>
        if attempt = retries - 1 then (.error url m, addRejected st'' url)
        else scrapeAttempts oracle url domain retries remaining (attempt + 1) st''

/-- `ScraperAgent.scrape_and_extract` (scrapper_agent.py lines 224–268).
The semaphore only bounds concurrency and has no effect on the
per-URL result. -/
def scrape_and_extract (oracle : Nat → BrowserOutcome) (url domain : List Char)
    (retries : Nat) (st : CrawlState) : FetchResult × CrawlState :=
  scrapeAttempts oracle url domain retries retries 0 st

/-! ## The crawl loop (`scrape_site`, scrapper_agent.py lines 270–335) -/

/-- The batch-assembly loop (lines 297–304): pop up to `n` URLs off the
queue, keep those not yet visited, marking each visited immediately.
Returns `(urls_to_fetch, queue, visited)`. -/
def popBatch : Nat → List (List Char) → List (List Char) →
    List (List Char) × List (List Char) × List (List Char)
  | 0, q, v => ([], q, v)
  | _ + 1, [], v => ([], [], v)
  | n + 1, url :: q, v =>
    if url ∈ v then popBatch n q v
    else
      let (f, q', v') := popBatch n q (v ++ [url])
      (url :: f, q', v')

/-- Dispatch of the batch: `asyncio.gather` over `scrape_and_extract`
tasks.  The tasks share the agent state; the semaphore serializes their
bursts, and the model threads the state sequentially in task order, which
`gather` also uses for the result list. -/
def runBatch (oracle : List Char → Nat → BrowserOutcome) (domain : List Char)
    (retries : Nat) : List (List Char) → CrawlState →
    List FetchResult × CrawlState
  | [], st => ([], st)
  | u :: rest, st =>
    let (r, st1) := scrape_and_extract (oracle u) u domain retries st
    let (rs, st2) := runBatch oracle domain retries rest st1
    (r :: rs, st2)

/-- The link-enqueueing conditional (lines 317–319): a discovered link is
appended to the queue only when the page budget has room and the link is
neither visited nor already queued. -/
def enqueueLink (max_pages : Nat) (st : CrawlState) (link : List Char) : CrawlState :=
  if st.scraped_pages.length + st.queue.length < max_pages ∧
      link ∉ st.visited ∧ link ∉ st.queue
  then {st with queue := st.queue ++ [link]}
  else st

/-- Result processing (lines 310–323): a success appends the page record
to `scraped_pages` and enqueues each outbound link through `enqueueLink`;
a failure appends the URL to `rejected_urls` (a second time —
`scrape_and_extract` already did so on its final attempt). -/
def processResult (max_pages : Nat) (st : CrawlState) (r : FetchResult) : CrawlState :=
  match r with
  | .page _ data links =>
    links.foldl (enqueueLink max_pages)
      {st with scraped_pages := st.scraped_pages ++ [data]}
  | .error url _ => addRejected st url

/-- One iteration of the `while queue and len(scraped_pages) < max_pages`
loop (lines 293–323); the identity when the guard fails. -/
def crawlStep (oracle : List Char → Nat → BrowserOutcome) (domain : List Char)
    (max_pages retries : Nat) (st : CrawlState) : CrawlState :=
  if st.queue ≠ [] ∧ st.scraped_pages.length < max_pages then
    let batch_size := min 20 (min (max_pages - st.scraped_pages.length) st.queue.length)
    let (fetch, q', v') := popBatch batch_size st.queue st.visited
    let st1 := {st with queue := q', visited := v', fetch_log := st.fetch_log ++ fetch}
    let (results, st2) := runBatch oracle domain retries fetch st1
    results.foldl (processResult max_pages) st2
  else st

/-- The state `scrape_site` starts its loop from (lines 272–283 clear the
agent collections and seed the queue with the normalized base URL). -/
def initCrawlState (seed : List Char) : CrawlState :=
  ⟨[], [], [], [seed], [], []⟩

/-- `ScraperAgent.scrape_site` (scrapper_agent.py lines 270–335): seed the
frontier with the normalized base URL (prefixing `https://` when the base
has no scheme), then run the crawl loop.  The loop is modelled by
iterating `crawlStep`; `fuel` bounds the number of iterations, and every
theorem below holds for every fuel.  `retries` is the default `2` of
`scrape_and_extract`.  The `Except` channel carries `urlparse` failures,
which in the source escape `scrape_site` to the run level. -/
def scrape_site (oracle : List Char → Nat → BrowserOutcome)
    (base_url : List Char) (max_pages fuel : Nat) :
    Except (List Char) (List PageData × CrawlState) := do
  let pr0 ← match pyUrlparse base_url [] with
    | none => Except.error "Invalid IPv6 URL".toList
    | some pr => Except.ok pr
  let base := if pr0.scheme = [] then "https://".toList ++ base_url else base_url
  let pr ← match pyUrlparse base [] with
    | none => Except.error "Invalid IPv6 URL".toList
    | some pr => Except.ok pr
  let domain := normalize_domain pr.netloc
  let seed ← match normalize_url base with
    | none => Except.error "Invalid IPv6 URL".toList
    | some s => Except.ok s
  let s := (crawlStep oracle domain max_pages 2)^[fuel] (initCrawlState seed)
  pure (s.scraped_pages, s)

/-! ## The workflow graph and its execution (`src/controller.py`)

`ResearchController._setup_workflow` (controller.py lines 103–149) wires a
LangGraph `StateGraph` with only unconditional edges.  LangGraph executes
it in supersteps: all frontier nodes run against the same state snapshot,
their returned records are merged into the state through the per-field
reducers of `ResearchState`, and the next frontier is the set of
successors of the nodes just run.  The state is projected to the two
fields the claims inspect, `company_name` and `error`; both carry the
reducers `ResearchState` declares for them (`reduce_company_name`, and the
effective `reduce_error`). -/

/-- Projection of `ResearchState` to the fields the claims inspect. -/
structure PipeState where
  company_name : Option String
  error : Option String
deriving DecidableEq, Repr

/-- Merge of a node's returned record into the current state via the
field reducers declared on `ResearchState` (schemas.py lines 134, 155). -/
def mergePipe (cur upd : PipeState) : PipeState :=
  ⟨reduce_company_name cur.company_name upd.company_name,
   reduce_error cur.error upd.error⟩

/-- The error message `run_scrape_website_node` records when the state has
no usable `company_name` (controller.py line 87). -/
def scrapeNodeMsg : String := "Company name not found in state for scraping."

/-- `ResearchController.run_scrape_website_node` (controller.py lines
82–101): with a falsy `company_name` it records the error and returns the
state without scraping; otherwise it delegates to
`ScraperAgent.scrape_website`, abstracted as `scrapeImpl`. -/
def run_scrape_website_node (scrapeImpl : PipeState → PipeState)
    (st : PipeState) : PipeState :=
  if truthyStr st.company_name then scrapeImpl st
  else {st with error := some scrapeNodeMsg}

/-- The edges added by `_setup_workflow` (controller.py lines 120–149), in
source order.  `set_entry_point` makes `scrape_website` the initial
frontier and `set_finish_point` ends the graph after `brand_analytics`. -/
def workflowEdges : List (String × String) :=
  [("scrape_website", "audit_analysis"),
   ("scrape_website", "compatibility_analysis"),
   ("scrape_website", "brand_identity"),
   ("brand_identity", "keyword_research"),
   ("scrape_website", "periodic_table_analysis"),
   ("keyword_research", "prompt_page_analysis"),
   ("prompt_page_analysis", "industry_analysis"),
   ("industry_analysis", "similar_web_analysis"),
   ("periodic_table_analysis", "visibility_analysis"),
   ("visibility_analysis", "brand_analytics"),
   ("industry_analysis", "brand_analytics"),
   ("similar_web_analysis", "brand_analytics")]

/-- Successors of a node along the unconditional edges. -/
def successors (n : String) : List String :=
  (workflowEdges.filter (fun e => e.1 = n)).map (fun e => e.2)

/-- Insert a node into a duplicate-free frontier list. -/
def frontAdd (l : List String) (x : String) : List String :=
  if x ∈ l then l else l ++ [x]

/-- One LangGraph superstep over `(state, frontier, executed-log)`: run
every frontier node on the current snapshot, merge the returned records
in order through the reducers, advance the frontier to the successor set
and log the nodes just executed.  An empty frontier means the run has
ended. -/
def pipeStep (fns : String → PipeState → PipeState) :
    PipeState × List String × List String → PipeState × List String × List String
  | (st, frontier, log) =>
    match frontier with
    | [] => (st, [], log)
    | _ =>
      let st' := frontier.foldl (fun acc n => mergePipe acc (fns n st)) st
      let next := frontier.foldl (fun acc n => (successors n).foldl frontAdd acc) []
      (st', next, log ++ frontier)

/-- The node-function table: `scrape_website` is
`run_scrape_website_node`; every other analysis stage calls a hosted
language model and is an external collaborator, abstracted by `others`. -/
def pipelineNodes (scrapeImpl : PipeState → PipeState)
    (others : String → PipeState → PipeState) (n : String) :
    PipeState → PipeState :=
  if n = "scrape_website" then run_scrape_website_node scrapeImpl else others n

/-- `run_workflow` (controller.py lines 157–247) compiled and invoked:
start at the entry point and run supersteps.  Returns the final state and
the list of executed stages.  Every theorem holds for every fuel. -/
def runPipeline (fns : String → PipeState → PipeState) (init : PipeState)
    (fuel : Nat) : PipeState × List String :=
  let r := (pipeStep fns)^[fuel] (init, ["scrape_website"], [])
  (r.1, r.2.2)

/-! # Theorems -/

/-! ## C1 — the `error` reducer -/

/-- C1: the pipeline's merge reducer for the `error` field is claimed to
be last-write-wins.  The binding `ResearchState` actually uses — the
second definition of `reduce_error` (schemas.py lines 87–89, shadowing the
first at 63–65) — keeps the EXISTING error: evaluated at an existing error
`"stage A failed"` and a new error `"stage B failed"` it returns the old
one, while the shadowed first definition (whose docstring "Prioritize the
new error" states the intended policy) returns the new one. -/
theorem reduce_error_shadowed_first_write_wins :
    reduce_error (some "stage A failed") (some "stage B failed") = some "stage A failed" ∧
    reduce_error_first_def (some "stage A failed") (some "stage B failed") = some "stage B failed" :=
  ⟨rfl, rfl⟩

/-! ## C5 — non-error reducers are first-write-wins -/

/-- C5: for the non-error fields, the merge reducer keeps the existing
value whenever it is set (truthy: not `None` and not `""`), ignoring the
new one; `niche`, `industry`, `goals`, `usp` and `company_name` all use
the same `existing or new` policy. -/
theorem non_error_reducers_first_write_wins (existing new : Option String)
    (h : truthyStr existing = true) :
    reduce_niche existing new = existing ∧
    reduce_industry existing new = existing ∧
    reduce_goals existing new = existing ∧
    reduce_usp existing new = existing ∧
    reduce_company_name existing new = existing := by
  simp [reduce_niche, reduce_industry, reduce_goals, reduce_usp,
    reduce_company_name, pyOrStr, h]

/-- Witness for C5 at the spec's example: a stage sets
`niche="finance"`, a later stage attempts `niche="retail"`, and
`"finance"` is kept. -/
theorem non_error_reducers_first_write_wins_witness :
    truthyStr (some "finance") = true ∧
    (reduce_niche (some "finance") (some "retail") = some "finance" ∧
     reduce_industry (some "finance") (some "retail") = some "finance" ∧
     reduce_goals (some "finance") (some "retail") = some "finance" ∧
     reduce_usp (some "finance") (some "retail") = some "finance" ∧
     reduce_company_name (some "finance") (some "retail") = some "finance") :=
  ⟨rfl, non_error_reducers_first_write_wins (some "finance") (some "retail") rfl⟩

/-! ## C10 — no division by zero in the scraped summary -/

/-- C10: when no per-page load times were recorded, the summary's
`average_page_load_speed` is defined and equals `0.0` (the conditional
expression never divides). -/
theorem average_page_load_speed_no_times (load_times : List ℚ)
    (h : load_times.length = 0) : average_page_load_speed load_times = 0 := by
  rw [List.length_eq_zero] at h
  simp [average_page_load_speed, h]

/-- Witness for C10 at the empty load-time list. -/
theorem average_page_load_speed_no_times_witness :
    (List.length ([] : List ℚ) = 0) ∧ average_page_load_speed [] = 0 :=
  ⟨rfl, average_page_load_speed_no_times [] rfl⟩

/-! ## C2 — counterexample: `normalize_url` does not strip `www.` -/

/-- Counterexample for C2: the two URL strings differ only by a leading
`"www."` on the host, yet `normalize_url` (the crawler's canonicalization,
scrapper_agent.py lines 54–59) maps them to different strings — it never
lower-cases the host or strips `"www."`; only `normalize_domain` does
that, and only for domain comparison. -/
theorem normalize_url_www_counterexample :
    normalize_url "https://www.example.com/a".toList ≠
      normalize_url "https://example.com/a".toList := by decide

/-! ## C6 — exhausted retries yield an explicit error result -/

/-- The retry loop under an oracle that raises on every attempt: from any
attempt index still inside the loop, the result is the error record for
the final attempt's message, with the URL appended to `rejected_urls`
once.  Shared by the C6 and C3 theorems. -/
theorem scrapeAttempts_all_exn (oracle : Nat → BrowserOutcome) (msgs : Nat → List Char)
    (url domain : List Char) (retries : Nat)
    (hall : ∀ i, i < retries → oracle i = .exn (msgs i)) :
    ∀ remaining attempt st, remaining + attempt = retries → 0 < remaining →
      scrapeAttempts oracle url domain retries remaining attempt st =
        (.error url (msgs (retries - 1)), addRejected st url) := by
  intro remaining
  induction remaining with
  | zero => intro attempt st _ h0; omega
  | succ r ih =>
    intro attempt st hsum _
    have hlt : attempt < retries := by omega
    simp only [scrapeAttempts, hall attempt hlt]
    by_cases hlast : attempt = retries - 1
    · rw [if_pos hlast, hlast]
    · rw [if_neg hlast]
      exact ih (attempt + 1) st (by omega) (by omega)

/-- `scrape_and_extract` under an all-failing oracle (helper shared with
the C3 development). -/
theorem scrape_and_extract_all_exn (oracle : Nat → BrowserOutcome)
    (msgs : Nat → List Char) (url domain : List Char) (retries : Nat)
    (st : CrawlState) (hret : 0 < retries)
    (hall : ∀ i, i < retries → oracle i = .exn (msgs i)) :
    scrape_and_extract oracle url domain retries st =
      (.error url (msgs (retries - 1)), addRejected st url) := by
  unfold scrape_and_extract
  exact scrapeAttempts_all_exn oracle msgs url domain retries hall retries 0 st
    (by omega) hret

/-- C6: when every allowed attempt at a URL raises, `scrape_and_extract`
returns the explicit per-URL error record — `{"url": url, "error":
str(e)}` for the final attempt's exception — rather than propagating the
exception, so the crawler can continue the batch. -/
theorem scrape_and_extract_returns_error_record (oracle : Nat → BrowserOutcome)
    (msgs : Nat → List Char) (url domain : List Char) (retries : Nat)
    (st : CrawlState) (hret : 0 < retries)
    (hall : ∀ i, i < retries → oracle i = .exn (msgs i)) :
    scrape_and_extract oracle url domain retries st =
      (.error url (msgs (retries - 1)), addRejected st url) :=
  scrape_and_extract_all_exn oracle msgs url domain retries st hret hall

/-- Witness for C6: both attempts of the default `retries = 2` raise a
navigation error; the result is the error record carrying the URL. -/
theorem scrape_and_extract_returns_error_record_witness :
    0 < 2 ∧
    (∀ i, i < 2 →
      (fun _ : Nat => BrowserOutcome.exn "net::ERR_CONNECTION_REFUSED".toList) i =
        .exn "net::ERR_CONNECTION_REFUSED".toList) ∧
    scrape_and_extract (fun _ => .exn "net::ERR_CONNECTION_REFUSED".toList)
        "https://ex.com".toList "ex.com".toList 2 (initCrawlState "https://ex.com".toList) =
      (.error "https://ex.com".toList "net::ERR_CONNECTION_REFUSED".toList,
        addRejected (initCrawlState "https://ex.com".toList) "https://ex.com".toList) :=
  ⟨by decide, fun _ _ => rfl,
    scrape_and_extract_returns_error_record
      (fun _ => .exn "net::ERR_CONNECTION_REFUSED".toList)
      (fun _ => "net::ERR_CONNECTION_REFUSED".toList)
      "https://ex.com".toList "ex.com".toList 2
      (initCrawlState "https://ex.com".toList) (by decide) (fun _ _ => rfl)⟩

/-! ## C3 — a URL failing all retries is recorded twice, not once -/

/-- A crawl step with an empty queue is the identity. -/
theorem crawlStep_queue_empty (oracle : List Char → Nat → BrowserOutcome)
    (domain : List Char) (max_pages retries : Nat) (s : CrawlState)
    (h : s.queue = []) :
    crawlStep oracle domain max_pages retries s = s := by
  unfold crawlStep
  rw [if_neg]
  simp [h]

/-- Iterating the crawl step from an empty queue stays put. -/
theorem crawlStep_iterate_queue_empty (oracle : List Char → Nat → BrowserOutcome)
    (domain : List Char) (max_pages retries : Nat) :
    ∀ k (s : CrawlState), s.queue = [] →
      (crawlStep oracle domain max_pages retries)^[k] s = s := by
  intro k
  induction k with
  | zero => intro s _; rfl
  | succ k ih =>
    intro s h
    rw [Function.iterate_succ_apply, crawlStep_queue_empty _ _ _ _ s h, ih s h]

/-- Counterexample for C3: a crawl whose seed URL raises on both fetch
attempts records that URL in `rejected_urls` TWICE — once by
`scrape_and_extract` on its final attempt (line 260) and once more by the
batch-result loop of `scrape_site` (line 323) — refuting "exactly once";
the page does not appear in `scraped_pages`. -/
theorem rejected_url_counted_twice_counterexample :
    List.count "https://ex.com".toList
        ((crawlStep (fun _ _ => .exn "net::ERR_TIMED_OUT".toList) "ex.com".toList 100 2)^[3]
          (initCrawlState "https://ex.com".toList)).rejected_urls = 2 ∧
    ((crawlStep (fun _ _ => .exn "net::ERR_TIMED_OUT".toList) "ex.com".toList 100 2)^[3]
        (initCrawlState "https://ex.com".toList)).scraped_pages = [] := by
  decide

/-- C3 (amended): for every crawl whose seed URL's fetch raises on every
allowed attempt, and for every fuel, the seed occurs exactly TWICE in
`rejected_urls` (appended by `scrape_and_extract` on the final failed
attempt and again by the result loop of `scrape_site`), and its page
record does not appear in the collected pages. -/
theorem failed_seed_rejected_exactly_twice (oracle : List Char → Nat → BrowserOutcome)
    (msgs : Nat → List Char) (u domain : List Char) (max_pages retries fuel : Nat)
    (hmax : 0 < max_pages) (hret : 0 < retries) (hfuel : 0 < fuel)
    (hall : ∀ i, i < retries → oracle u i = .exn (msgs i)) :
    ((crawlStep oracle domain max_pages retries)^[fuel] (initCrawlState u)).rejected_urls
        = [u, u] ∧
    ((crawlStep oracle domain max_pages retries)^[fuel] (initCrawlState u)).scraped_pages
        = [] ∧
    List.count u
        ((crawlStep oracle domain max_pages retries)^[fuel] (initCrawlState u)).rejected_urls
        = 2 := by
  obtain ⟨k, rfl⟩ : ∃ k, fuel = k + 1 := ⟨fuel - 1, by omega⟩
  have hmin : min 20 (min max_pages 1) = 1 := by omega
  have hmin1 : min max_pages 1 = 1 := by omega
  have hse : scrape_and_extract (oracle u) u domain retries
      ⟨[u], [], [], [], [], [u]⟩ =
      (.error u (msgs (retries - 1)), ⟨[u], [u], [], [], [], [u]⟩) := by
    rw [scrape_and_extract_all_exn (oracle u) msgs u domain retries _ hret hall]
    rfl
  have hstep : crawlStep oracle domain max_pages retries (initCrawlState u) =
      ⟨[u], [u, u], [], [], [], [u]⟩ := by
    unfold crawlStep
    rw [if_pos ⟨by simp [initCrawlState], by simpa [initCrawlState] using hmax⟩]
    simp [initCrawlState, hmin, hmin1, popBatch, runBatch, hse, processResult, addRejected]
  rw [Function.iterate_succ_apply, hstep,
    crawlStep_iterate_queue_empty oracle domain max_pages retries k _ rfl]
  refine ⟨rfl, rfl, ?_⟩
  simp [List.count_cons]

/-- Witness for C3's amended theorem at a concrete all-failing oracle. -/
theorem failed_seed_rejected_exactly_twice_witness :
    (0 < 100 ∧ 0 < 2 ∧ 0 < 3 ∧
      (∀ i, i < 2 →
        (fun (_ : List Char) (_ : Nat) => BrowserOutcome.exn "boom".toList)
          "https://ex.com".toList i = .exn "boom".toList)) ∧
    (((crawlStep (fun _ _ => .exn "boom".toList) "ex.com".toList 100 2)^[3]
        (initCrawlState "https://ex.com".toList)).rejected_urls
        = ["https://ex.com".toList, "https://ex.com".toList] ∧
      ((crawlStep (fun _ _ => .exn "boom".toList) "ex.com".toList 100 2)^[3]
        (initCrawlState "https://ex.com".toList)).scraped_pages = [] ∧
      List.count "https://ex.com".toList
        ((crawlStep (fun _ _ => .exn "boom".toList) "ex.com".toList 100 2)^[3]
          (initCrawlState "https://ex.com".toList)).rejected_urls = 2) :=
  ⟨⟨by decide, by decide, by decide, fun _ _ => rfl⟩,
    failed_seed_rejected_exactly_twice (fun _ _ => .exn "boom".toList)
      (fun _ => "boom".toList) "https://ex.com".toList "ex.com".toList 100 2 3
      (by decide) (by decide) (by decide) (fun _ _ => rfl)⟩

/-! ## C7 — no re-enqueueing of visited or queued URLs -/

/-- Folding the enqueue conditional over any link list never appends a
URL that is already visited or already queued: its queue multiplicity is
unchanged. -/
theorem foldl_enqueueLink_count (max_pages : Nat) (u : List Char) :
    ∀ (links : List (List Char)) (st : CrawlState),
      u ∈ st.visited ∨ u ∈ st.queue →
      List.count u ((links.foldl (enqueueLink max_pages) st).queue) =
        List.count u st.queue := by
  intro links
  induction links with
  | nil => intro st _; rfl
  | cons link rest ih =>
    intro st h
    rw [List.foldl_cons]
    have hv : (enqueueLink max_pages st link).visited = st.visited := by
      unfold enqueueLink; split <;> rfl
    have hcount : List.count u (enqueueLink max_pages st link).queue =
        List.count u st.queue := by
      unfold enqueueLink
      split
      · rename_i hcond
        have hne : link ≠ u := by
          rcases h with h | h
          · intro he; exact hcond.2.1 (he ▸ h)
          · intro he; exact hcond.2.2 (he ▸ h)
        have hz : List.count u [link] = 0 := by
          rw [List.count_eq_zero]
          intro hmem
          rw [List.mem_singleton] at hmem
          exact hne hmem.symm
        simp [List.count_append, hz]
      · rfl
    have h' : u ∈ (enqueueLink max_pages st link).visited ∨
        u ∈ (enqueueLink max_pages st link).queue := by
      rcases h with h | h
      · exact Or.inl (hv ▸ h)
      · refine Or.inr ?_
        unfold enqueueLink
        split
        · simp [h]
        · exact h
    rw [ih _ h', hcount]

/-- C7: while the crawl processes a successful page's outbound links, a
canonical URL already in the visited set or already present in the queue
is never appended to the queue again — its multiplicity in the queue is
unchanged by the whole result-processing step. -/
theorem visited_or_queued_link_never_reenqueued (max_pages : Nat)
    (url : List Char) (data : PageData) (links : List (List Char))
    (st : CrawlState) (u : List Char)
    (h : u ∈ st.visited ∨ u ∈ st.queue) :
    List.count u (processResult max_pages st (.page url data links)).queue =
      List.count u st.queue := by
  unfold processResult
  exact foldl_enqueueLink_count max_pages u links
    {st with scraped_pages := st.scraped_pages ++ [data]} h

/-- Witness for C7: with `"https://ex.com/a"` already queued and
`"https://ex.com"` visited, a page rediscovering both contributes no
duplicate queue entries. -/
theorem visited_or_queued_link_never_reenqueued_witness :
    ("https://ex.com/a".toList ∈
        (⟨["https://ex.com".toList], [], [], ["https://ex.com/a".toList], [], []⟩ :
          CrawlState).visited ∨
      "https://ex.com/a".toList ∈
        (⟨["https://ex.com".toList], [], [], ["https://ex.com/a".toList], [], []⟩ :
          CrawlState).queue) ∧
    List.count "https://ex.com/a".toList
        (processResult 100
          ⟨["https://ex.com".toList], [], [], ["https://ex.com/a".toList], [], []⟩
          (.page "https://ex.com".toList "HOME".toList
            ["https://ex.com/a".toList, "https://ex.com".toList,
              "https://ex.com/b".toList])).queue =
      List.count "https://ex.com/a".toList
        (⟨["https://ex.com".toList], [], [], ["https://ex.com/a".toList], [], []⟩ :
          CrawlState).queue :=
  ⟨by decide,
    visited_or_queued_link_never_reenqueued 100 "https://ex.com".toList
      "HOME".toList
      ["https://ex.com/a".toList, "https://ex.com".toList, "https://ex.com/b".toList]
      ⟨["https://ex.com".toList], [], [], ["https://ex.com/a".toList], [], []⟩
      "https://ex.com/a".toList (by decide)⟩

/-! ## C4 — crawl-loop invariants -/

/-- The crawler-state fields that fetching never mutates: `visited`,
`queue`, `scraped_pages` and the dispatch log (a fetch only appends to
`rejected_urls` and `load_times`). -/
def corePreserved (s t : CrawlState) : Prop :=
  t.visited = s.visited ∧ t.queue = s.queue ∧
  t.scraped_pages = s.scraped_pages ∧ t.fetch_log = s.fetch_log

theorem corePreserved_refl (s : CrawlState) : corePreserved s s :=
  ⟨rfl, rfl, rfl, rfl⟩

theorem corePreserved_trans {a b c : CrawlState}
    (h1 : corePreserved a b) (h2 : corePreserved b c) : corePreserved a c :=
  ⟨h2.1.trans h1.1, h2.2.1.trans h1.2.1, h2.2.2.1.trans h1.2.2.1,
    h2.2.2.2.trans h1.2.2.2⟩

/-- `is_valid_url` only ever appends to `rejected_urls`. -/
theorem is_valid_url_core (url domain : List Char) (st : CrawlState) :
    corePreserved st (is_valid_url url domain st).1 := by
  unfold is_valid_url
  split
  · exact corePreserved_refl st
  · dsimp only
    split
    · exact corePreserved_refl st
    · exact ⟨rfl, rfl, rfl, rfl⟩

/-- `get_links` only ever appends to `rejected_urls`. -/
theorem get_links_core (current domain : List Char) :
    ∀ (hrefs : List (List Char)) (st : CrawlState) (links : List (List Char)),
      corePreserved st (get_links current domain hrefs st links).1 := by
  intro hrefs
  induction hrefs with
  | nil => intro st links; exact corePreserved_refl st
  | cons href rest ih =>
    intro st links
    rw [get_links]
    split
    · exact ih st links
    · split
      · exact corePreserved_refl st
      · rename_i nu _
        dsimp only
        rcases hv : is_valid_url (pyReplace fframeworksPat frameworksRep nu) domain st
          with ⟨st2, r⟩
        have hcore : corePreserved st st2 := by
          have := is_valid_url_core (pyReplace fframeworksPat frameworksRep nu) domain st
          rw [hv] at this
          exact this
        cases r with
        | error e => exact hcore
        | ok b =>
          cases b with
          | true =>
            exact corePreserved_trans hcore
              (ih st2 (setAdd links (pyReplace fframeworksPat frameworksRep nu)))
          | false => exact corePreserved_trans hcore (ih st2 links)

/-- The retry loop only ever appends to `rejected_urls` and `load_times`. -/
theorem scrapeAttempts_core (oracle : Nat → BrowserOutcome) (url domain : List Char)
    (retries : Nat) :
    ∀ (remaining attempt : Nat) (st : CrawlState),
      corePreserved st (scrapeAttempts oracle url domain retries remaining attempt st).2 := by
  intro remaining
  induction remaining with
  | zero => intro attempt st; exact corePreserved_refl st
  | succ r ih =>
    intro attempt st
    rw [scrapeAttempts]
    cases horacle : oracle attempt with
    | exn msg =>
      dsimp only
      by_cases hlast : attempt = retries - 1
      · rw [if_pos hlast]
        exact ⟨rfl, rfl, rfl, rfl⟩
      · rw [if_neg hlast]
        exact ih (attempt + 1) st
    | ok lt pd hrefs =>
      have hcore1 : corePreserved st {st with load_times := st.load_times ++ [lt]} :=
        ⟨rfl, rfl, rfl, rfl⟩
      dsimp only
      rcases hg : get_links url domain hrefs {st with load_times := st.load_times ++ [lt]} []
        with ⟨st2, rr⟩
      have hcore2 : corePreserved st st2 := by
        have := get_links_core url domain hrefs {st with load_times := st.load_times ++ [lt]} []
        rw [hg] at this
        exact corePreserved_trans hcore1 this
      cases rr with
      | ok links => exact hcore2
      | error m =>
        dsimp only
        by_cases hlast : attempt = retries - 1
        · rw [if_pos hlast]
          exact corePreserved_trans hcore2 ⟨rfl, rfl, rfl, rfl⟩
        · rw [if_neg hlast]
          exact corePreserved_trans hcore2 (ih (attempt + 1) st2)

/-- A whole batch of fetches preserves the core fields and yields one
result per dispatched URL. -/
theorem runBatch_core (oracle : List Char → Nat → BrowserOutcome)
    (domain : List Char) (retries : Nat) :
    ∀ (urls : List (List Char)) (st : CrawlState),
      corePreserved st (runBatch oracle domain retries urls st).2 ∧
      (runBatch oracle domain retries urls st).1.length = urls.length := by
  intro urls
  induction urls with
  | nil => intro st; exact ⟨corePreserved_refl st, rfl⟩
  | cons u rest ih =>
    intro st
    rw [runBatch]
    rcases hs : scrape_and_extract (oracle u) u domain retries st with ⟨r, st1⟩
    have hcore1 : corePreserved st st1 := by
      have := scrapeAttempts_core (oracle u) u domain retries retries 0 st
      rw [show scrapeAttempts (oracle u) u domain retries retries 0 st =
        scrape_and_extract (oracle u) u domain retries st from rfl, hs] at this
      exact this
    rcases hr : runBatch oracle domain retries rest st1 with ⟨rs, st2⟩
    obtain ⟨hcore2, hlen⟩ := ih st1
    rw [hr] at hcore2 hlen
    simp only [hs, hr]
    exact ⟨corePreserved_trans hcore1 hcore2, by simp [hlen]⟩

/-- Specification of the batch-assembly loop: the visited set grows by
exactly the dispatched URLs, which are pairwise distinct, fresh with
respect to the previous visited set, and at most `n` many. -/
theorem popBatch_spec :
    ∀ (n : Nat) (q v : List (List Char)),
      (popBatch n q v).2.2 = v ++ (popBatch n q v).1 ∧
      (popBatch n q v).1.Nodup ∧
      (∀ x ∈ (popBatch n q v).1, x ∉ v) ∧
      (popBatch n q v).1.length ≤ n := by
  intro n
  induction n with
  | zero => intro q v; simp [popBatch]
  | succ n ih =>
    intro q v
    cases q with
    | nil => simp [popBatch]
    | cons url q =>
      by_cases hmem : url ∈ v
      · obtain ⟨h1, h2, h3, h4⟩ := ih q v
        simp only [popBatch, if_pos hmem]
        exact ⟨h1, h2, h3, by omega⟩
      · obtain ⟨h1, h2, h3, h4⟩ := ih q (v ++ [url])
        rcases he : popBatch n q (v ++ [url]) with ⟨f, q', v'⟩
        rw [he] at h1 h2 h3 h4
        simp only at h1 h2 h3 h4
        simp only [popBatch, if_neg hmem, he]
        refine ⟨?_, ?_, ?_, ?_⟩
        · simpa [List.append_assoc] using h1
        · refine List.nodup_cons.mpr ⟨?_, h2⟩
          intro hf
          exact (h3 url hf) (by simp)
        · intro x hx
          rcases List.mem_cons.mp hx with rfl | hx
          · exact hmem
          · intro hxv
            exact (h3 x hx) (by simp [hxv])
        · dsimp only
          simp only [List.length_cons]
          omega

/-- The enqueue fold touches only the queue. -/
theorem foldl_enqueueLink_fields (max_pages : Nat) :
    ∀ (links : List (List Char)) (st : CrawlState),
      (links.foldl (enqueueLink max_pages) st).visited = st.visited ∧
      (links.foldl (enqueueLink max_pages) st).scraped_pages = st.scraped_pages ∧
      (links.foldl (enqueueLink max_pages) st).fetch_log = st.fetch_log := by
  intro links
  induction links with
  | nil => intro st; exact ⟨rfl, rfl, rfl⟩
  | cons l rest ih =>
    intro st
    rw [List.foldl_cons]
    obtain ⟨h1, h2, h3⟩ := ih (enqueueLink max_pages st l)
    have he : (enqueueLink max_pages st l).visited = st.visited ∧
        (enqueueLink max_pages st l).scraped_pages = st.scraped_pages ∧
        (enqueueLink max_pages st l).fetch_log = st.fetch_log := by
      unfold enqueueLink
      split <;> exact ⟨rfl, rfl, rfl⟩
    exact ⟨h1.trans he.1, h2.trans he.2.1, h3.trans he.2.2⟩

/-- Processing one fetch result keeps `visited` and the dispatch log and
appends at most one page record. -/
theorem processResult_fields (max_pages : Nat) (st : CrawlState) (r : FetchResult) :
    (processResult max_pages st r).visited = st.visited ∧
    (processResult max_pages st r).fetch_log = st.fetch_log ∧
    (processResult max_pages st r).scraped_pages.length ≤ st.scraped_pages.length + 1 := by
  match r with
  | .page url data links =>
    obtain ⟨h1, h2, h3⟩ := foldl_enqueueLink_fields max_pages links
      {st with scraped_pages := st.scraped_pages ++ [data]}
    exact ⟨h1, h3, by simp [processResult, h2]⟩
  | .error url msg => exact ⟨rfl, rfl, by simp [processResult, addRejected]⟩

/-- Processing a whole batch's results keeps `visited` and the dispatch
log and appends at most one page record per result. -/
theorem foldl_processResult_fields (max_pages : Nat) :
    ∀ (results : List FetchResult) (st : CrawlState),
      (results.foldl (processResult max_pages) st).visited = st.visited ∧
      (results.foldl (processResult max_pages) st).fetch_log = st.fetch_log ∧
      (results.foldl (processResult max_pages) st).scraped_pages.length ≤
        st.scraped_pages.length + results.length := by
  intro results
  induction results with
  | nil => intro st; exact ⟨rfl, rfl, by simp⟩
  | cons r rest ih =>
    intro st
    rw [List.foldl_cons]
    obtain ⟨h1, h2, h3⟩ := ih (processResult max_pages st r)
    obtain ⟨g1, g2, g3⟩ := processResult_fields max_pages st r
    refine ⟨h1.trans g1, h2.trans g2, ?_⟩
    simp only [List.length_cons]
    omega

/-- The loop invariant of C4: the collected pages never exceed
`max_pages` and never outnumber the visited URLs, and the dispatch log
is duplicate-free (every logged URL having been added to `visited` at
dispatch time). -/
def CrawlInv (max_pages : Nat) (s : CrawlState) : Prop :=
  s.scraped_pages.length ≤ max_pages ∧
  s.scraped_pages.length ≤ s.visited.length ∧
  s.fetch_log.Nodup ∧
  ∀ x ∈ s.fetch_log, x ∈ s.visited

/-- One crawl step extends `visited` on the right and preserves the
invariant. -/
theorem crawlStep_inv (oracle : List Char → Nat → BrowserOutcome)
    (domain : List Char) (max_pages retries : Nat) (s : CrawlState)
    (hinv : CrawlInv max_pages s) :
    CrawlInv max_pages (crawlStep oracle domain max_pages retries s) ∧
    ∃ t, (crawlStep oracle domain max_pages retries s).visited = s.visited ++ t := by
  obtain ⟨hmax, hvis, hnd, hsub⟩ := hinv
  unfold crawlStep
  split
  case isFalse => exact ⟨⟨hmax, hvis, hnd, hsub⟩, [], by simp⟩
  case isTrue hguard =>
    obtain ⟨-, hlt⟩ := hguard
    set bs := min 20 (min (max_pages - s.scraped_pages.length) s.queue.length) with hbs
    obtain ⟨p1, p2, p3, p4⟩ := popBatch_spec bs s.queue s.visited
    rcases hp : popBatch bs s.queue s.visited with ⟨fetch, q', v'⟩
    rw [hp] at p1 p2 p3 p4
    simp only at p1 p2 p3 p4
    dsimp only
    rw [hp]
    dsimp only
    obtain ⟨rcore, rlen⟩ := runBatch_core oracle domain retries fetch
      {s with queue := q', visited := v', fetch_log := s.fetch_log ++ fetch}
    rcases hr : runBatch oracle domain retries fetch
      {s with queue := q', visited := v', fetch_log := s.fetch_log ++ fetch}
      with ⟨results, st2⟩
    rw [hr] at rcore rlen
    simp only at rcore rlen
    dsimp only
    obtain ⟨f1, f2, f3⟩ := foldl_processResult_fields max_pages results st2
    have hst2vis : st2.visited = v' := rcore.1
    have hst2log : st2.fetch_log = s.fetch_log ++ fetch := rcore.2.2.2
    have hst2scr : st2.scraped_pages = s.scraped_pages := rcore.2.2.1
    have hfetchlen : fetch.length ≤ max_pages - s.scraped_pages.length := by
      have : bs ≤ max_pages - s.scraped_pages.length :=
        le_trans (min_le_right _ _) (min_le_left _ _)
      omega
    have f3' : (results.foldl (processResult max_pages) st2).scraped_pages.length ≤
        s.scraped_pages.length + fetch.length := by
      rw [hst2scr, rlen] at f3
      exact f3
    have hfoldvis : (results.foldl (processResult max_pages) st2).visited =
        s.visited ++ fetch := by rw [f1, hst2vis, p1]
    have hfoldlog : (results.foldl (processResult max_pages) st2).fetch_log =
        s.fetch_log ++ fetch := by rw [f2, hst2log]
    constructor
    · refine ⟨by omega, ?_, ?_, ?_⟩
      · rw [hfoldvis, List.length_append]
        omega
      · rw [hfoldlog, List.nodup_append]
        refine ⟨hnd, p2, ?_⟩
        intro x hx hxf
        exact (p3 x hxf) (hsub x hx)
      · intro x hx
        rw [hfoldlog] at hx
        rw [hfoldvis]
        rcases List.mem_append.mp hx with hx | hx
        · exact List.mem_append.mpr (Or.inl (hsub x hx))
        · exact List.mem_append.mpr (Or.inr hx)
    · exact ⟨fetch, hfoldvis⟩

/-- The invariant holds at every iteration of the crawl loop from the
seeded initial state. -/
theorem crawlInv_iterate (oracle : List Char → Nat → BrowserOutcome)
    (domain : List Char) (max_pages retries : Nat) (u : List Char) :
    ∀ k, CrawlInv max_pages
      ((crawlStep oracle domain max_pages retries)^[k] (initCrawlState u)) := by
  intro k
  induction k with
  | zero => exact ⟨by simp [initCrawlState], by simp [initCrawlState],
      by simp [initCrawlState], by simp [initCrawlState]⟩
  | succ k ih =>
    rw [Function.iterate_succ_apply']
    exact (crawlStep_inv oracle domain max_pages retries _ ih).1

/-- C4: throughout every crawl (every iteration count `k`, every
`max_pages`), the number of collected page records never exceeds
`max_pages` and never exceeds the size of the visited set; the visited
set only ever grows from one iteration to the next; and no URL is ever
dispatched to the fetcher twice (the dispatch log stays
duplicate-free). -/
theorem crawl_loop_invariants (oracle : List Char → Nat → BrowserOutcome)
    (domain : List Char) (max_pages retries : Nat) (u : List Char) (k : Nat) :
    ((crawlStep oracle domain max_pages retries)^[k] (initCrawlState u)).scraped_pages.length
        ≤ max_pages ∧
    ((crawlStep oracle domain max_pages retries)^[k] (initCrawlState u)).scraped_pages.length
        ≤ ((crawlStep oracle domain max_pages retries)^[k] (initCrawlState u)).visited.length ∧
    ((crawlStep oracle domain max_pages retries)^[k] (initCrawlState u)).fetch_log.Nodup ∧
    ∃ t, ((crawlStep oracle domain max_pages retries)^[k + 1] (initCrawlState u)).visited =
      ((crawlStep oracle domain max_pages retries)^[k] (initCrawlState u)).visited ++ t := by
  obtain ⟨h1, h2, h3, _⟩ := crawlInv_iterate oracle domain max_pages retries u k
  refine ⟨h1, h2, h3, ?_⟩
  rw [Function.iterate_succ_apply']
  exact (crawlStep_inv oracle domain max_pages retries _
    (crawlInv_iterate oracle domain max_pages retries u k)).2

/-! ## C9 — the `fframeworks` → `frameworks` rewrite in `get_links` -/

/-- A Boolean prefix implies the length inequality. -/
theorem isPrefixOf_length_le :
    ∀ (l₁ l₂ : List Char), l₁.isPrefixOf l₂ = true → l₁.length ≤ l₂.length := by
  intro l₁
  induction l₁ with
  | nil => intro l₂ _; simp
  | cons a as ih =>
    intro l₂ h
    cases l₂ with
    | nil => simp [List.isPrefixOf] at h
    | cons b bs =>
      simp only [List.isPrefixOf, Bool.and_eq_true] at h
      simpa using ih bs h.2

/-- The replacement scan never lengthens the string when the replacement
is no longer than the pattern. -/
theorem replaceGo_length_le (p0 : Char) (prest repl : List Char)
    (hrep : repl.length ≤ prest.length + 1) :
    ∀ (fuel : Nat) (s : List Char),
      (replaceGo p0 prest repl fuel s).length ≤ s.length := by
  intro fuel
  induction fuel with
  | zero =>
    intro s
    cases s with
    | nil => simp [replaceGo]
    | cons c rest => simp [replaceGo]
  | succ fuel ih =>
    intro s
    cases s with
    | nil => simp [replaceGo]
    | cons c rest =>
      rw [replaceGo]
      by_cases hpre : (p0 :: prest).isPrefixOf (c :: rest) = true
      · rw [if_pos hpre]
        have hlen : prest.length + 1 ≤ rest.length + 1 :=
          by simpa using isPrefixOf_length_le _ _ hpre
        have hrec := ih (rest.drop prest.length)
        simp only [List.length_append, List.length_cons]
        have hdrop : (rest.drop prest.length).length = rest.length - prest.length :=
          List.length_drop _ _
        omega
      · rw [if_neg hpre]
        simpa using ih rest

/-- When the pattern occurs and the replacement is strictly shorter, the
replacement scan strictly shortens the string. -/
theorem replaceGo_length_lt (p0 : Char) (prest repl : List Char)
    (hrep : repl.length < prest.length + 1) :
    ∀ (fuel : Nat) (s : List Char), s.length ≤ fuel →
      occursIn (p0 :: prest) s = true →
      (replaceGo p0 prest repl fuel s).length < s.length := by
  intro fuel
  induction fuel with
  | zero =>
    intro s hle hocc
    have : s = [] := List.length_eq_zero.mp (by omega)
    subst this
    simp [occursIn, List.isPrefixOf] at hocc
  | succ fuel ih =>
    intro s hle hocc
    cases s with
    | nil => simp [occursIn, List.isPrefixOf] at hocc
    | cons c rest =>
      rw [replaceGo]
      by_cases hpre : (p0 :: prest).isPrefixOf (c :: rest) = true
      · rw [if_pos hpre]
        have hlen : prest.length + 1 ≤ rest.length + 1 :=
          by simpa using isPrefixOf_length_le _ _ hpre
        have hrec := replaceGo_length_le p0 prest repl (by omega) fuel
          (rest.drop prest.length)
        have hdrop : (rest.drop prest.length).length = rest.length - prest.length :=
          List.length_drop _ _
        simp only [List.length_append, List.length_cons]
        omega
      · rw [if_neg hpre]
        rw [occursIn, Bool.or_eq_true] at hocc
        rcases hocc with hocc | hocc
        · exact absurd hocc hpre
        · have hle' : rest.length ≤ fuel := by
            simp only [List.length_cons] at hle
            omega
          have := ih rest hle' hocc
          simp only [List.length_cons]
          omega

/-- `str.replace` with a strictly shorter replacement changes every
string in which the pattern occurs. -/
theorem pyReplace_ne_of_occurs (pat repl s : List Char) (hpat : pat ≠ [])
    (hrep : repl.length < pat.length) (hocc : occursIn pat s = true) :
    pyReplace pat repl s ≠ s := by
  cases pat with
  | nil => exact absurd rfl hpat
  | cons p0 prest =>
    have hlt : (pyReplace (p0 :: prest) repl s).length < s.length := by
      unfold pyReplace
      exact replaceGo_length_lt p0 prest repl (by simpa using hrep) s.length s
        le_rfl hocc
    intro heq
    rw [heq] at hlt
    exact absurd hlt (lt_irrefl _)

/-- Every link emitted by `get_links` beyond the accumulator is the
`fframeworks`-rewritten canonical URL of one of the page's hrefs. -/
theorem get_links_links_sound (current domain : List Char) :
    ∀ (hrefs : List (List Char)) (st : CrawlState) (acc : List (List Char))
      (st' : CrawlState) (links : List (List Char)),
      get_links current domain hrefs st acc = (st', .ok links) →
      ∀ l ∈ links, l ∈ acc ∨ ∃ href, href ∈ hrefs ∧ href.head? ≠ some '#' ∧
        ∃ nu, candNorm current href = some nu ∧
          l = pyReplace fframeworksPat frameworksRep nu := by
  intro hrefs
  induction hrefs with
  | nil =>
    intro st acc st' links h l hl
    simp only [get_links, Prod.mk.injEq, Except.ok.injEq] at h
    exact Or.inl (h.2 ▸ hl)
  | cons href rest ih =>
    intro st acc st' links h l hl
    rw [get_links] at h
    by_cases hhash : href.head? = some '#'
    · rw [if_pos hhash] at h
      rcases ih st acc st' links h l hl with h' | ⟨hr, hmem, hh, nu, hc, hrepl⟩
      · exact Or.inl h'
      · exact Or.inr ⟨hr, List.mem_cons_of_mem _ hmem, hh, nu, hc, hrepl⟩
    · rw [if_neg hhash] at h
      cases hcand : candNorm current href with
      | none =>
        rw [hcand] at h
        simp at h
      | some nu =>
        rw [hcand] at h
        dsimp only at h
        rcases hv : is_valid_url (pyReplace fframeworksPat frameworksRep nu) domain st
          with ⟨st2, r⟩
        rw [hv] at h
        cases r with
        | error e => simp at h
        | ok b =>
          cases b with
          | true =>
            rcases ih st2 (setAdd acc (pyReplace fframeworksPat frameworksRep nu))
                st' links h l hl with h' | ⟨hr, hmem, hh, nu', hc, hrepl⟩
            · unfold setAdd at h'
              by_cases hm : pyReplace fframeworksPat frameworksRep nu ∈ acc
              · rw [if_pos hm] at h'
                exact Or.inl h'
              · rw [if_neg hm] at h'
                rcases List.mem_append.mp h' with h'' | h''
                · exact Or.inl h''
                · exact Or.inr ⟨href, List.mem_cons_self _ _, hhash, nu, hcand,
                    List.mem_singleton.mp h''⟩
            · exact Or.inr ⟨hr, List.mem_cons_of_mem _ hmem, hh, nu', hc, hrepl⟩
          | false =>
            rcases ih st2 acc st' links h l hl with h' | ⟨hr, hmem, hh, nu', hc, hrepl⟩
            · exact Or.inl h'
            · exact Or.inr ⟨hr, List.mem_cons_of_mem _ hmem, hh, nu', hc, hrepl⟩

/-- C9: `get_links` rewrites `fframeworks` to `frameworks` in the
canonicalized URL of an href before validity checking and collection:
every emitted link is `pyReplace "fframeworks" "frameworks"` of the
canonicalized URL of some non-anchor href of the page, and whenever that
canonical URL contains `fframeworks`, the emitted link differs from it —
the original URL is never the one collected for that href. -/
theorem get_links_fframeworks_rewrite (current domain : List Char)
    (hrefs : List (List Char)) (st st' : CrawlState) (links : List (List Char))
    (hrun : get_links current domain hrefs st [] = (st', .ok links)) :
    (∀ l ∈ links, ∃ href, href ∈ hrefs ∧ href.head? ≠ some '#' ∧
      ∃ nu, candNorm current href = some nu ∧
        l = pyReplace fframeworksPat frameworksRep nu) ∧
    (∀ nu : List Char, occursIn fframeworksPat nu = true →
      pyReplace fframeworksPat frameworksRep nu ≠ nu) := by
  constructor
  · intro l hl
    rcases get_links_links_sound current domain hrefs st [] st' links hrun l hl
      with h | h
    · simp at h
    · exact h
  · intro nu hocc
    exact pyReplace_ne_of_occurs fframeworksPat frameworksRep nu (by decide)
      (by decide) hocc

/-- Witness for C9: a page at `https://ex.com/start` with the single
href `/fframeworks/x` yields exactly the rewritten link
`https://ex.com/frameworks/x`. -/
theorem get_links_fframeworks_rewrite_witness :
    (get_links "https://ex.com/start".toList "ex.com".toList
        ["/fframeworks/x".toList] ⟨[], [], [], [], [], []⟩ [] =
      (⟨[], [], [], [], [], []⟩, .ok ["https://ex.com/frameworks/x".toList])) ∧
    ((∀ l ∈ ["https://ex.com/frameworks/x".toList], ∃ href,
        href ∈ ["/fframeworks/x".toList] ∧ href.head? ≠ some '#' ∧
        ∃ nu, candNorm "https://ex.com/start".toList href = some nu ∧
          l = pyReplace fframeworksPat frameworksRep nu) ∧
      (∀ nu : List Char, occursIn fframeworksPat nu = true →
        pyReplace fframeworksPat frameworksRep nu ≠ nu)) :=
  ⟨rfl,
    get_links_fframeworks_rewrite "https://ex.com/start".toList "ex.com".toList
      ["/fframeworks/x".toList] ⟨[], [], [], [], [], []⟩
      ⟨[], [], [], [], [], []⟩ ["https://ex.com/frameworks/x".toList] rfl⟩

/-! ## C8 — a run without a target does not short-circuit the pipeline -/

/-- Once `error` is truthy, a merge never changes it (the effective
`reduce_error` keeps the existing value). -/
theorem mergePipe_error_keep (cur upd : PipeState)
    (h : truthyStr cur.error = true) : (mergePipe cur upd).error = cur.error := by
  simp [mergePipe, reduce_error, pyOrStr, h]

/-- A superstep's merge fold keeps a truthy `error`. -/
theorem foldl_mergePipe_error_keep (f : String → PipeState) :
    ∀ (ns : List String) (acc : PipeState), truthyStr acc.error = true →
      ((ns.foldl (fun acc n => mergePipe acc (f n)) acc)).error = acc.error := by
  intro ns
  induction ns with
  | nil => intro acc _; rfl
  | cons n rest ih =>
    intro acc h
    rw [List.foldl_cons]
    have hkeep := mergePipe_error_keep acc (f n) h
    have h' : truthyStr (mergePipe acc (f n)).error = true := by rw [hkeep]; exact h
    rw [ih (mergePipe acc (f n)) h', hkeep]

/-- One superstep keeps a truthy `error`. -/
theorem pipeStep_error_keep (fns : String → PipeState → PipeState)
    (x : PipeState × List String × List String)
    (h : truthyStr x.1.error = true) : (pipeStep fns x).1.error = x.1.error := by
  rcases x with ⟨st, frontier, log⟩
  cases frontier with
  | nil => rfl
  | cons n rest =>
    exact foldl_mergePipe_error_keep (fun m => fns m st) (n :: rest) st h

/-- Iterated supersteps keep a truthy `error`. -/
theorem pipeStep_iterate_error_keep (fns : String → PipeState → PipeState) :
    ∀ (k : Nat) (x : PipeState × List String × List String),
      truthyStr x.1.error = true →
      ((pipeStep fns)^[k] x).1.error = x.1.error := by
  intro k
  induction k with
  | zero => intro x _; rfl
  | succ k ih =>
    intro x h
    rw [Function.iterate_succ_apply]
    have hkeep := pipeStep_error_keep fns x h
    have h' : truthyStr (pipeStep fns x).1.error = true := by rw [hkeep]; exact h
    rw [ih (pipeStep fns x) h', hkeep]

/-- The executed-stage log only grows. -/
theorem pipeStep_log_mono (fns : String → PipeState → PipeState)
    (x : PipeState × List String × List String) (m : String)
    (h : m ∈ x.2.2) : m ∈ (pipeStep fns x).2.2 := by
  rcases x with ⟨st, frontier, log⟩
  cases frontier with
  | nil => exact h
  | cons n rest => exact List.mem_append.mpr (Or.inl h)

/-- A frontier node is logged as executed by the next superstep. -/
theorem pipeStep_frontier_to_log (fns : String → PipeState → PipeState)
    (x : PipeState × List String × List String) (m : String)
    (h : m ∈ x.2.1) : m ∈ (pipeStep fns x).2.2 := by
  rcases x with ⟨st, frontier, log⟩
  cases frontier with
  | nil => exact absurd h (List.not_mem_nil m)
  | cons n rest => exact List.mem_append.mpr (Or.inr h)

/-- Iterated supersteps keep every logged stage. -/
theorem pipeStep_iterate_log_mono (fns : String → PipeState → PipeState) :
    ∀ (k : Nat) (x : PipeState × List String × List String) (m : String),
      m ∈ x.2.2 → m ∈ ((pipeStep fns)^[k] x).2.2 := by
  intro k
  induction k with
  | zero => intro x m h; exact h
  | succ k ih =>
    intro x m h
    rw [Function.iterate_succ_apply]
    exact ih (pipeStep fns x) m (pipeStep_log_mono fns x m h)

/-- Counterexample for C8: a run whose target is the empty string does
NOT skip the pipeline — the downstream stage `brand_identity` executes
(every edge out of `scrape_website` is unconditional), and the final
result is the full state (still carrying `company_name`), not an
error-only record. -/
theorem pipeline_empty_target_counterexample :
    "brand_identity" ∈
      (runPipeline (pipelineNodes id (fun _ => id)) ⟨some "", none⟩ 8).2 ∧
    (runPipeline (pipelineNodes id (fun _ => id)) ⟨some "", none⟩ 8).1.company_name =
      some "" := by
  decide

/-- C8 (amended): for every run started without a usable target (falsy
`company_name`) and any behaviour of the downstream language-model
stages, the scrape node records the error `"Company name not found in
state for scraping."` in the shared state — which every later merge
preserves, since the effective `error` reducer keeps the existing value —
and the downstream stages still execute (`brand_identity` appears in the
executed-stage log): the run is not short-circuited and the result is the
full state with `error` set. -/
theorem pipeline_empty_target_error_and_downstream_runs
    (scrapeImpl : PipeState → PipeState) (others : String → PipeState → PipeState)
    (name : Option String) (fuel : Nat)
    (hname : truthyStr name = false) (hfuel : 2 ≤ fuel) :
    (runPipeline (pipelineNodes scrapeImpl others) ⟨name, none⟩ fuel).1.error =
      some scrapeNodeMsg ∧
    "brand_identity" ∈ (runPipeline (pipelineNodes scrapeImpl others) ⟨name, none⟩ fuel).2 := by
  obtain ⟨k, rfl⟩ : ∃ k, fuel = (k + 1) + 1 := ⟨fuel - 2, by omega⟩
  have hnode : pipelineNodes scrapeImpl others "scrape_website" ⟨name, none⟩ =
      ⟨name, some scrapeNodeMsg⟩ := by
    unfold pipelineNodes
    rw [if_pos rfl]
    unfold run_scrape_website_node
    simp only [hname, Bool.false_eq_true, if_false]
  have hmerge : mergePipe ⟨name, none⟩ ⟨name, some scrapeNodeMsg⟩ =
      ⟨name, some scrapeNodeMsg⟩ := by
    simp [mergePipe, reduce_company_name, reduce_error, pyOrStr, truthyStr, ite_self]
  have hfront : (["scrape_website"].foldl
      (fun acc n => (successors n).foldl frontAdd acc) ([] : List String)) =
      ["audit_analysis", "compatibility_analysis", "brand_identity",
        "periodic_table_analysis"] := by decide
  have hx1 : pipeStep (pipelineNodes scrapeImpl others)
      (⟨name, none⟩, ["scrape_website"], ([] : List String)) =
      (⟨name, some scrapeNodeMsg⟩,
        ["audit_analysis", "compatibility_analysis", "brand_identity",
          "periodic_table_analysis"], ["scrape_website"]) := by
    unfold pipeStep
    dsimp only
    rw [List.foldl_cons, List.foldl_nil, hnode, hmerge, hfront]
    rw [List.nil_append]
  unfold runPipeline
  dsimp only
  rw [Function.iterate_succ_apply, hx1]
  constructor
  · rw [pipeStep_iterate_error_keep (pipelineNodes scrapeImpl others) (k + 1) _
      (show truthyStr (some scrapeNodeMsg) = true by decide)]
  · rw [Function.iterate_succ_apply]
    refine pipeStep_iterate_log_mono (pipelineNodes scrapeImpl others) k _ _ ?_
    refine pipeStep_frontier_to_log (pipelineNodes scrapeImpl others) _ _ ?_
    exact (show "brand_identity" ∈ ["audit_analysis", "compatibility_analysis",
      "brand_identity", "periodic_table_analysis"] by decide)

/-- Witness for C8's amended theorem at the empty-string target. -/
theorem pipeline_empty_target_error_and_downstream_runs_witness :
    (truthyStr (some "") = false ∧ 2 ≤ 8) ∧
    ((runPipeline (pipelineNodes id (fun _ => id)) ⟨some "", none⟩ 8).1.error =
        some scrapeNodeMsg ∧
      "brand_identity" ∈
        (runPipeline (pipelineNodes id (fun _ => id)) ⟨some "", none⟩ 8).2) :=
  ⟨⟨by decide, by decide⟩,
    pipeline_empty_target_error_and_downstream_runs id (fun _ => id)
      (some "") 8 (by decide) (by decide)⟩

/-! ## C2 — amended: `normalize_url` is invariant under fragment suffixes
and trailing slashes (but not under `www.`) -/

/-- The `scheme://host path` assembly the amended C2 statement ranges
over. -/
def urlOf (sc h p : List Char) : List Char :=
  sc ++ ':' :: '/' :: '/' :: (h ++ p)

theorem splitFirst_not_mem (c : Char) :
    ∀ (l : List Char), c ∉ l → splitFirst c l = none := by
  intro l
  induction l with
  | nil => intro _; rfl
  | cons x xs ih =>
    intro hmem
    have hx : ¬(x = c) := fun he => hmem (he ▸ List.mem_cons_self x xs)
    rw [splitFirst, if_neg hx, ih (fun hm => hmem (List.mem_cons_of_mem x hm))]

theorem splitFirst_append (c : Char) :
    ∀ (l r : List Char), c ∉ l → splitFirst c (l ++ c :: r) = some (l, r) := by
  intro l
  induction l with
  | nil => intro r _; simp [splitFirst]
  | cons x xs ih =>
    intro r hmem
    have hx : ¬(x = c) := fun he => hmem (he ▸ List.mem_cons_self x xs)
    rw [List.cons_append, splitFirst, if_neg hx,
      ih r (fun hm => hmem (List.mem_cons_of_mem x hm))]

theorem takeWhile_all (p : Char → Bool) :
    ∀ (l : List Char), (∀ x ∈ l, p x = true) →
      l.takeWhile p = l ∧ l.dropWhile p = [] := by
  intro l
  induction l with
  | nil => intro _; exact ⟨rfl, rfl⟩
  | cons x xs ih =>
    intro hall
    have hx : p x = true := hall x (List.mem_cons_self x xs)
    obtain ⟨h1, h2⟩ := ih (fun y hy => hall y (List.mem_cons_of_mem x hy))
    constructor <;> simp [List.takeWhile_cons, List.dropWhile_cons, hx, h1, h2]

theorem takeWhile_append_stop (p : Char → Bool) :
    ∀ (l : List Char) (y : Char) (r : List Char),
      (∀ x ∈ l, p x = true) → p y = false →
      (l ++ y :: r).takeWhile p = l ∧ (l ++ y :: r).dropWhile p = y :: r := by
  intro l
  induction l with
  | nil =>
    intro y r _ hy
    constructor <;> simp [List.takeWhile_cons, List.dropWhile_cons, hy]
  | cons x xs ih =>
    intro y r hall hy
    have hx : p x = true := hall x (List.mem_cons_self x xs)
    obtain ⟨h1, h2⟩ := ih y r (fun z hz => hall z (List.mem_cons_of_mem x hz)) hy
    constructor <;>
      simp [List.cons_append, List.takeWhile_cons, List.dropWhile_cons, hx, h1, h2]

/-- ASCII lower-case letters are `toLower`-fixed. -/
theorem toLower_of_isLower (c : Char) (h : c.isLower = true) : c.toLower = c := by
  simp [Char.isLower] at h
  unfold Char.toLower
  rw [if_neg]
  rintro ⟨h1, h2⟩
  have hge : c.toNat ≥ 97 := by
    have := h.1
    simp [Char.toNat]
    exact this
  omega

theorem map_toLower_self :
    ∀ (l : List Char), (∀ c ∈ l, c.isLower = true) → l.map Char.toLower = l := by
  intro l
  induction l with
  | nil => intro _; rfl
  | cons x xs ih =>
    intro hall
    rw [List.map_cons, toLower_of_isLower x (hall x (List.mem_cons_self x xs)),
      ih (fun y hy => hall y (List.mem_cons_of_mem x hy))]

/-- Properties a lower-case letter has as a URL character. -/
theorem isLower_url_facts (c : Char) (h : c.isLower = true) :
    c.isAlpha = true ∧ isSchemeChar c = true ∧ c ≠ ':' ∧ controlByte c = false := by
  refine ⟨?_, ?_, ?_, ?_⟩
  · simp [Char.isAlpha, h]
  · simp [isSchemeChar, Char.isAlpha, h]
  · intro he; rw [he] at h; exact absurd h (by decide)
  · have h1 : c ≠ '\t' := fun he => by rw [he] at h; exact absurd h (by decide)
    have h2 : c ≠ '\r' := fun he => by rw [he] at h; exact absurd h (by decide)
    have h3 : c ≠ '\n' := fun he => by rw [he] at h; exact absurd h (by decide)
    simp [controlByte, h1, h2, h3]

/-- A control-byte-free structured URL passes through the strip phase. -/
theorem strip_urlOf (sc h p : List Char)
    (hlow : ∀ c ∈ sc, c.isLower = true)
    (hhc : ∀ c ∈ h, controlByte c = false)
    (hpc : ∀ c ∈ p, controlByte c = false) :
    stripControlBytes (urlOf sc h p) = urlOf sc h p := by
  unfold stripControlBytes urlOf
  rw [List.filter_eq_self]
  intro a ha
  simp only [List.mem_append, List.mem_cons] at ha
  rcases ha with ha | rfl | rfl | rfl | ha | ha
  · simp [(isLower_url_facts a (hlow a ha)).2.2.2]
  · decide
  · decide
  · decide
  · simp [hhc a ha]
  · simp [hpc a ha]

theorem strip_urlOf_frag (sc h p : List Char)
    (hlow : ∀ c ∈ sc, c.isLower = true)
    (hhc : ∀ c ∈ h, controlByte c = false)
    (hpc : ∀ c ∈ p, controlByte c = false) (f : List Char) :
    stripControlBytes (urlOf sc h p ++ '#' :: f) =
      urlOf sc h p ++ '#' :: stripControlBytes f := by
  have h1 := strip_urlOf sc h p hlow hhc hpc
  unfold stripControlBytes at h1 ⊢
  rw [List.filter_append, h1, List.filter_cons, if_pos (by decide)]

/-- The scheme-recognition phase on a well-formed lower-case scheme. -/
theorem splitScheme_structured (sc rest : List Char)
    (hsc : sc ≠ []) (hlow : ∀ c ∈ sc, c.isLower = true) :
    splitScheme (sc ++ ':' :: rest) [] = (sc, rest) := by
  have hcolon : ':' ∉ sc := fun hm => (isLower_url_facts ':' (hlow ':' hm)).2.2.1 rfl
  unfold splitScheme
  rw [splitFirst_append ':' sc rest hcolon]
  have hcond : sc ≠ [] ∧ (sc.head?.any Char.isAlpha) = true ∧
      (sc.all isSchemeChar) = true := by
    refine ⟨hsc, ?_, ?_⟩
    · cases sc with
      | nil => exact absurd rfl hsc
      | cons a as =>
        simpa using (isLower_url_facts a (hlow a (List.mem_cons_self a as))).1
    · rw [List.all_eq_true]
      intro c hc
      exact (isLower_url_facts c (hlow c hc)).2.1
  dsimp only
  rw [if_pos hcond, map_toLower_self sc hlow]

/-- `urlsplit` on a well-formed `scheme://host path suffix` URL, where
`suffix` is empty or a fragment: the scheme, host and path are recovered
exactly, the query is empty and the fragment is the suffix's tail. -/
theorem pyUrlsplit_structured (url0 sc h p X : List Char)
    (hstrip : stripControlBytes url0 = sc ++ ':' :: '/' :: '/' :: (h ++ p ++ X))
    (hsc : sc ≠ []) (hlow : ∀ c ∈ sc, c.isLower = true)
    (hh : ∀ c ∈ h, netlocChar c = true ∧ c ≠ '[' ∧ c ≠ ']')
    (hp : ∀ c ∈ p, c ≠ '#' ∧ c ≠ '?')
    (hhead : p = [] ∨ p.head? = some '/')
    (hX : X = [] ∨ X.head? = some '#') :
    pyUrlsplit url0 [] = some ⟨sc, h, p, [], X.tail⟩ := by
  have hhash : '#' ∉ p := fun hm => (hp '#' hm).1 rfl
  have hques : '?' ∉ p := fun hm => (hp '?' hm).2 rfl
  unfold pyUrlsplit
  dsimp only
  rw [hstrip, show stripControlBytes ([] : List Char) = [] from rfl,
    splitScheme_structured sc ('/' :: '/' :: (h ++ p ++ X)) hsc hlow]
  dsimp only
  rw [if_pos (show List.take 2 ('/' :: '/' :: (h ++ p ++ X)) = ['/', '/'] from rfl)]
  rw [show List.drop 2 ('/' :: '/' :: (h ++ p ++ X)) = h ++ p ++ X from rfl]
  have htake : (h ++ (p ++ X)).takeWhile netlocChar = h ∧
      (h ++ (p ++ X)).dropWhile netlocChar = p ++ X := by
    have hall : ∀ c ∈ h, netlocChar c = true := fun c hc => (hh c hc).1
    rcases hhead with rfl | hph
    · rcases hX with rfl | hXh
      · simpa using takeWhile_all netlocChar h hall
      · cases X with
        | nil => simp at hXh
        | cons x xs =>
          have hx : x = '#' := by simpa using hXh
          subst hx
          simpa using takeWhile_append_stop netlocChar h '#' xs hall (by decide)
    · cases p with
      | nil => simp at hph
      | cons a as =>
        have ha : a = '/' := by simpa using hph
        subst ha
        simpa using takeWhile_append_stop netlocChar h '/' (as ++ X) hall (by decide)
  rw [List.append_assoc, htake.1, htake.2]
  rw [if_neg ?noBrackets]
  case noBrackets =>
    intro hbr
    rcases hbr with hbr | hbr
    · exact (hh '[' hbr).2.1 rfl
    · exact (hh ']' hbr).2.2 rfl
  dsimp only
  rcases hX with rfl | hXh
  · rw [show p ++ ([] : List Char) = p from by simp, splitFirst_not_mem '#' p hhash]
    dsimp only
    rw [splitFirst_not_mem '?' p hques]
    rfl
  · cases X with
    | nil => simp at hXh
    | cons x xs =>
      have hx : x = '#' := by simpa using hXh
      subst hx
      rw [splitFirst_append '#' p xs hhash]
      dsimp only
      rw [splitFirst_not_mem '?' p hques]
      rfl

/-- Appending a trailing slash does not change `rstrip('/')`. -/
theorem rstripSlash_append_slash (p : List Char) :
    rstripSlash (p ++ ['/']) = rstripSlash p := by
  unfold rstripSlash
  rw [List.reverse_append]
  simp [List.dropWhile_cons]

/-- C2 (amended): for well-formed absolute URLs — nonempty all-lowercase
scheme, bracket-free host without `/?#` or control bytes, path empty or
starting with `/` and free of `#`, `?` and control bytes — the crawler's
canonicalization `normalize_url` is invariant under appending a fragment
(for every fragment `f`), and, when the path contains no `;` (which
`urlparse` would treat as a params separator), under appending a trailing
slash.  It is NOT invariant under a leading `www.` on the host (see the
counterexample): host normalization lives only in `normalize_domain`. -/
theorem normalize_url_fragment_slash_invariance
    (sc h p f : List Char)
    (hsc : sc ≠ []) (hlow : ∀ c ∈ sc, c.isLower = true)
    (hh : ∀ c ∈ h, netlocChar c = true ∧ c ≠ '[' ∧ c ≠ ']' ∧ controlByte c = false)
    (hp : ∀ c ∈ p, c ≠ '#' ∧ c ≠ '?' ∧ controlByte c = false)
    (hhead : p = [] ∨ p.head? = some '/') :
    normalize_url (urlOf sc h p ++ '#' :: f) = normalize_url (urlOf sc h p) ∧
    (';' ∉ p →
      normalize_url (urlOf sc h (p ++ ['/'])) = normalize_url (urlOf sc h p)) := by
  have hh' : ∀ c ∈ h, netlocChar c = true ∧ c ≠ '[' ∧ c ≠ ']' :=
    fun c hc => ⟨(hh c hc).1, (hh c hc).2.1, (hh c hc).2.2.1⟩
  have hp' : ∀ c ∈ p, c ≠ '#' ∧ c ≠ '?' :=
    fun c hc => ⟨(hp c hc).1, (hp c hc).2.1⟩
  have hhc : ∀ c ∈ h, controlByte c = false := fun c hc => (hh c hc).2.2.2
  have hpc : ∀ c ∈ p, controlByte c = false := fun c hc => (hp c hc).2.2
  have hstrip0 : stripControlBytes (urlOf sc h p) =
      sc ++ ':' :: '/' :: '/' :: (h ++ p ++ []) := by
    rw [show h ++ p ++ ([] : List Char) = h ++ p from by simp]
    exact strip_urlOf sc h p hlow hhc hpc
  have e2 := pyUrlsplit_structured (urlOf sc h p) sc h p [] hstrip0 hsc hlow hh' hp'
    hhead (Or.inl rfl)
  constructor
  · have hstrip1 : stripControlBytes (urlOf sc h p ++ '#' :: f) =
        sc ++ ':' :: '/' :: '/' :: (h ++ p ++ ('#' :: stripControlBytes f)) := by
      rw [strip_urlOf_frag sc h p hlow hhc hpc f]
      simp [urlOf, List.append_assoc]
    have e1 := pyUrlsplit_structured (urlOf sc h p ++ '#' :: f) sc h p
      ('#' :: stripControlBytes f) hstrip1 hsc hlow hh' hp' hhead (Or.inr rfl)
    unfold normalize_url pyUrlparse
    rw [e1, e2]
    by_cases hc : sc ∈ uses_params ∧ ';' ∈ p
    · simp [hc]
    · simp [hc]
  · intro hsemi
    have hp2 : ∀ c ∈ p ++ ['/'], c ≠ '#' ∧ c ≠ '?' := by
      intro c hc
      rcases List.mem_append.mp hc with hc | hc
      · exact hp' c hc
      · rw [List.mem_singleton.mp hc]
        exact ⟨by decide, by decide⟩
    have hpc2 : ∀ c ∈ p ++ ['/'], controlByte c = false := by
      intro c hc
      rcases List.mem_append.mp hc with hc | hc
      · exact hpc c hc
      · rw [List.mem_singleton.mp hc]
        decide
    have hhead2 : p ++ ['/'] = [] ∨ (p ++ ['/']).head? = some '/' := by
      right
      cases p with
      | nil => rfl
      | cons a as =>
        rcases hhead with h0 | h0
        · exact absurd h0 (by simp)
        · simpa using h0
    have hstrip3 : stripControlBytes (urlOf sc h (p ++ ['/'])) =
        sc ++ ':' :: '/' :: '/' :: (h ++ (p ++ ['/']) ++ []) := by
      rw [show h ++ (p ++ ['/']) ++ ([] : List Char) = h ++ (p ++ ['/']) from by simp]
      exact strip_urlOf sc h (p ++ ['/']) hlow hhc hpc2
    have e3 := pyUrlsplit_structured (urlOf sc h (p ++ ['/'])) sc h (p ++ ['/']) []
      hstrip3 hsc hlow hh' hp2 hhead2 (Or.inl rfl)
    have hsemi2 : ';' ∉ p ++ ['/'] := by
      intro hm
      rcases List.mem_append.mp hm with hm | hm
      · exact hsemi hm
      · simp at hm
    unfold normalize_url pyUrlparse
    rw [e3, e2]
    simp [hsemi, hsemi2, rstripSlash_append_slash]

/-- Witness for the amended C2 theorem at
`https://example.com/about` with fragment `sec`. -/
theorem normalize_url_fragment_slash_invariance_witness :
    ("https".toList ≠ [] ∧
      (∀ c ∈ "https".toList, c.isLower = true) ∧
      (∀ c ∈ "example.com".toList,
        netlocChar c = true ∧ c ≠ '[' ∧ c ≠ ']' ∧ controlByte c = false) ∧
      (∀ c ∈ "/about".toList, c ≠ '#' ∧ c ≠ '?' ∧ controlByte c = false) ∧
      ("/about".toList = [] ∨ "/about".toList.head? = some '/')) ∧
    (normalize_url (urlOf "https".toList "example.com".toList "/about".toList ++
        '#' :: "sec".toList) =
      normalize_url (urlOf "https".toList "example.com".toList "/about".toList) ∧
    (';' ∉ "/about".toList →
      normalize_url (urlOf "https".toList "example.com".toList
          ("/about".toList ++ ['/'])) =
        normalize_url (urlOf "https".toList "example.com".toList "/about".toList))) :=
  ⟨⟨by decide, by decide, by decide, by decide, by decide⟩,
    normalize_url_fragment_slash_invariance "https".toList "example.com".toList
      "/about".toList "sec".toList (by decide) (by decide) (by decide) (by decide)
      (by decide)⟩

end SurfGEO
